import Mathlib

/-!
# Verification of the MediaPipe hand-detection service

Shallow embedding of `scripts/mediapipe_service.py`: a long-running worker
that reads length-prefixed image frames from its input stream, runs an
external hand-landmark detector on each decoded frame, and emits one JSON
record per frame.

Modelling choices:
* the input byte stream is a `List Nat` (each element one byte);
* the image decoder (`cv2.imdecode`), the colour conversion
  (`cv2.cvtColor`) and the external detector (`HandLandmarker.detect`) are
  opaque functions bundled in an `Env`; the decoder returns `Option`
  (`None` in Python on decode failure), the detector returns `Option`
  where `none` models a raised exception;
* Python floats are modelled as rationals (`ℚ`); the service performs no
  arithmetic on them, only pass-through;
* an uncaught exception while processing a frame is modelled as `none`
  from `processFrame`; `mainLoop` then stops with exit code 1 and emits
  nothing for that frame;
* one `print(json.dumps(...), flush=True)` call is one element of the
  output list: each list element is one newline-terminated line.
-/

namespace MediapipeService

/-- One landmark of the detector output (`lm.x`, `lm.y`, `lm.z`). -/
structure NormalizedLandmark where
  x : ℚ
  y : ℚ
  z : ℚ
  deriving DecidableEq, Repr

/-- One handedness category of the detector output
(`handedness_info.category_name`, `handedness_info.score`). -/
structure Category where
  category_name : String
  score : ℚ
  deriving DecidableEq, Repr

/-- The detector result (`detection_result.hand_landmarks`,
`detection_result.handedness`). -/
structure DetectionResult where
  hand_landmarks : List (List NormalizedLandmark)
  handedness : List (List Category)
  deriving DecidableEq, Repr

/-- One point of the output record (`{"x": lm.x, "y": lm.y, "z": lm.z}`). -/
structure Point where
  x : ℚ
  y : ℚ
  z : ℚ
  deriving DecidableEq, Repr

/-- One hand of the output record
(`{"points": points, "handedness": handedness, "score": score}`). -/
structure Hand where
  points : List Point
  handedness : String
  score : ℚ
  deriving DecidableEq, Repr

/-- The output record (`{"hands": [...]}`). -/
structure OutputRecord where
  hands : List Hand
  deriving DecidableEq, Repr

/-- The opaque external collaborators of one service run: the image
decoder `np.frombuffer` + `cv2.imdecode` (returns `none` on decode
failure, like `None` in Python), the `cv2.cvtColor` BGR→RGB conversion
composed with `mp.Image` construction, and the detector call
`detector.detect` (returns `none` when the detector raises). -/
structure Env (Image : Type) where
  decode : List Nat → Option Image
  cvtColor : Image → Image
  detect : Image → Option DetectionResult

/-- `struct.unpack(">I", b)[0]`: big-endian interpretation of a byte
list. -/
def beU32 (l : List Nat) : Nat :=
  l.foldl (fun a b => a * 256 + b) 0

/-- `readFrame`: one iteration of the reader part of the loop.  Reads 4
bytes (`sys.stdin.buffer.read(4)`); on short read breaks (`none`), else
interprets them big-endian and reads that many payload bytes; on short
payload read breaks (`none`), else yields the payload and the remaining
stream. -/
def readFrame (s : List Nat) : Option (List Nat × List Nat) :=
  let lengthBytes := s.take 4
  if lengthBytes.length < 4 then none
  else
    let len := beU32 lengthBytes
    let rest := s.drop 4
    let payload := rest.take len
    if payload.length < len then none
    else some (payload, rest.drop len)

/-- `{"x": lm.x, "y": lm.y, "z": lm.z}` of the landmark loop. -/
def mkPoint (lm : NormalizedLandmark) : Point :=
  ⟨lm.x, lm.y, lm.z⟩

/-- Formatting of one detected hand (loop body of
`for i, hand_landmarks in enumerate(...)`): handedness and score default
to `"Right"` / `0.9`, overridden by
`detection_result.handedness[i][0]` when
`detection_result.handedness and i < len(detection_result.handedness)`;
`none` models the `IndexError` raised by `[0]` on an empty inner list. -/
def formatHand (dr : DetectionResult) (i : Nat) (lms : List NormalizedLandmark) :
    Option Hand :=
  if h : dr.handedness ≠ [] ∧ i < dr.handedness.length then
    match dr.handedness.get ⟨i, h.2⟩ with
    | [] => none
    | c :: _ => some ⟨lms.map mkPoint, c.category_name, c.score⟩
  else
    some ⟨lms.map mkPoint, "Right", (9 : ℚ) / 10⟩

/-- The `enumerate` loop over `detection_result.hand_landmarks`, starting
at index `i`. -/
def formatHands (dr : DetectionResult) (i : Nat) :
    List (List NormalizedLandmark) → Option (List Hand)
  | [] => some []
  | lms :: rest => do
      let h ← formatHand dr i lms
      let hs ← formatHands dr (i + 1) rest
      pure (h :: hs)

/-- Building `output` from the detection result: `{"hands": []}` when
`detection_result.hand_landmarks` is empty (falsy), else one hand per
entry in detector order. -/
def formatResult (dr : DetectionResult) : Option OutputRecord :=
  if dr.hand_landmarks = [] then some ⟨[]⟩
  else (formatHands dr 0 dr.hand_landmarks).map fun hs => ⟨hs⟩

/-- Processing of one fully-read frame payload (lines 59–101): decode;
on decode failure (`image_bgr is None`) the record `{"hands": []}`
without touching the detector; else colour-convert, run the detector
(`none` = the detector raised, nothing emitted for this frame) and format
the result. -/
def processFrame {Image : Type} (env : Env Image) (payload : List Nat) :
    Option OutputRecord :=
  match env.decode payload with
  | none => some ⟨[]⟩
  | some img =>
      match env.detect (env.cvtColor img) with
      | none => none
      | some dr => formatResult dr

/-- The `while True` loop of `main`: returns the list of records printed
(in order) and the exit code — `0` when the loop ends by a short read
(`break`), `1` when an uncaught exception ends the process mid-frame. -/
def mainLoop {Image : Type} (env : Env Image) (s : List Nat) :
    List OutputRecord × Nat :=
  match h : readFrame s with
  | none => ([], 0)
  | some (p, s') =>
      match processFrame env p with
      | none => ([], 1)
      | some r =>
          have : s'.length < s.length := by
            unfold readFrame at h
            simp only at h
            split at h
            · exact absurd h (by simp)
            · split at h
              · exact absurd h (by simp)
              · rename_i h4 _
                simp only [Option.some.injEq, Prod.mk.injEq] at h
                have hs4 : 4 ≤ s.length := by
                  simp [List.length_take] at h4
                  omega
                have := h.2
                subst this
                simp [List.length_drop]
                omega
          let res := mainLoop env s'
          (r :: res.1, res.2)
  termination_by s.length

/-- The frames successively read by the reader until it signals
end-of-stream: the payload sequence a run of the loop consumes. -/
def readFrames (s : List Nat) : List (List Nat) :=
  match h : readFrame s with
  | none => []
  | some (p, s') =>
      have : s'.length < s.length := by
        unfold readFrame at h
        simp only at h
        split at h
        · exact absurd h (by simp)
        · split at h
          · exact absurd h (by simp)
          · rename_i h4 _
            simp only [Option.some.injEq, Prod.mk.injEq] at h
            have hs4 : 4 ≤ s.length := by
              simp [List.length_take] at h4
              omega
            have := h.2
            subst this
            simp [List.length_drop]
            omega
      p :: readFrames s'
  termination_by s.length

/-- The startup error message printed to stderr when the model file is
missing (line 28). -/
def modelNotFoundMsg (modelPath : String) : String :=
  "Error: Model file not found at " ++ modelPath

/-- The whole process: the module-level model-file check (lines 27–29)
runs before `main`; when the model file is absent the message goes to the
error stream and the process exits 1 without reading any input; otherwise
`main` runs the loop.  Result: (stdout records, stderr lines, exit
code). -/
def runService {Image : Type} (modelExists : Bool) (modelPath : String)
    (env : Env Image) (s : List Nat) :
    List OutputRecord × List String × Nat :=
  if modelExists then
    ((mainLoop env s).1, [], (mainLoop env s).2)
  else
    ([], [modelNotFoundMsg modelPath], 1)

/-- `struct.pack(">I", n)`: the 4 big-endian bytes of `n < 2^32`. -/
def toBE4 (n : Nat) : List Nat :=
  [n / 2 ^ 24 % 256, n / 2 ^ 16 % 256, n / 2 ^ 8 % 256, n % 256]

/-- Wire encoding of one payload: 4-byte big-endian length then the
payload bytes. -/
def encodeFrame (p : List Nat) : List Nat :=
  toBE4 p.length ++ p

/-- Concatenation of the wire encodings of a payload sequence. -/
def encodeAll (ps : List (List Nat)) : List Nat :=
  ps.foldr (fun p acc => encodeFrame p ++ acc) []

/-! ## A structural JSON model of the emitted lines

`json.dumps(output)` serializes the nested dict; its shape is modelled by
a JSON value tree.  One `print` is one newline-terminated line, i.e. one
element of `mainLoop`'s output list. -/

/-- JSON values, as far as the service's output shape needs. -/
inductive Json where
  | num (q : ℚ)
  | str (s : String)
  | arr (elems : List Json)
  | obj (fields : List (String × Json))

/-- The dict `{"x": ..., "y": ..., "z": ...}` built per landmark. -/
def pointToJson (pt : Point) : Json :=
  .obj [("x", .num pt.x), ("y", .num pt.y), ("z", .num pt.z)]

/-- The dict `{"points": ..., "handedness": ..., "score": ...}` appended
per hand. -/
def handToJson (h : Hand) : Json :=
  .obj [("points", .arr (h.points.map pointToJson)),
        ("handedness", .str h.handedness),
        ("score", .num h.score)]

/-- The dict `{"hands": [...]}` passed to `json.dumps`. -/
def recordToJson (r : OutputRecord) : Json :=
  .obj [("hands", .arr (r.hands.map handToJson))]

/-- Wire-schema check for one point: an object with numeric fields
`x`, `y`, `z`. -/
def jsonPointOk : Json → Bool
  | .obj [("x", .num _), ("y", .num _), ("z", .num _)] => true
  | _ => false

/-- Wire-schema check for one hand: `points` an array of `L` valid
points, `handedness` the string `"Left"` or `"Right"`, `score` a number
in `[0, 1]`. -/
def jsonHandOk (L : Nat) : Json → Bool
  | .obj [("points", .arr pts), ("handedness", .str hd), ("score", .num sc)] =>
      pts.length == L && pts.all jsonPointOk &&
        (hd == "Left" || hd == "Right") &&
        decide ((0 : ℚ) ≤ sc) && decide (sc ≤ 1)
  | _ => false

/-- Wire-schema check for one output line: an object whose single key
`hands` holds a (possibly empty) array of valid hands. -/
def jsonRecordOk (L : Nat) : Json → Bool
  | .obj [("hands", .arr hs)] => hs.all (jsonHandOk L)
  | _ => false

/-- The external detector's contract: every result it returns has `L`
landmarks per detected hand, and every per-hand classification category
carries a `"Left"`/`"Right"` name and a confidence in `[0, 1]`. -/
def detectorContract {Image : Type} (env : Env Image) (L : Nat) : Prop :=
  ∀ img dr, env.detect img = some dr →
    (∀ lms ∈ dr.hand_landmarks, lms.length = L) ∧
    (∀ cs ∈ dr.handedness, ∀ c ∈ cs,
      (c.category_name = "Left" ∨ c.category_name = "Right") ∧
        0 ≤ c.score ∧ c.score ≤ 1)

/-! ## Concrete fixtures used to exercise the theorems -/

/-- A detector result with one hand, one landmark and a full
classification. -/
def sampleResult : DetectionResult :=
  ⟨[[⟨1 / 2, 1 / 3, 0⟩]], [[⟨"Left", 1⟩]]⟩

/-- An environment whose decoder rejects the empty payload and accepts
all others, and whose detector always reports `sampleResult`. -/
def okEnv : Env Unit :=
  ⟨fun p => if p = [] then none else some (), fun i => i, fun _ => some sampleResult⟩

/-- An environment whose decoder fails on every payload. -/
def decodeFailEnv : Env Unit :=
  ⟨fun _ => none, fun i => i, fun _ => some sampleResult⟩

/-- An environment whose detector raises on every image. -/
def detectorRaiseEnv : Env Unit :=
  ⟨fun _ => some (), fun i => i, fun _ => none⟩

/-- A detector result with one hand and no handedness classification at
all. -/
def noHandednessResult : DetectionResult :=
  ⟨[[⟨1 / 4, 1 / 5, 1 / 6⟩]], []⟩

/-- An environment whose detector reports `noHandednessResult`. -/
def noHandednessEnv : Env Unit :=
  ⟨fun _ => some (), fun i => i, fun _ => some noHandednessResult⟩

/-- A detector result with two hands but only one handedness
classification. -/
def shortHandednessResult : DetectionResult :=
  ⟨[[⟨0, 0, 0⟩], [⟨1, 1, 1⟩]], [[⟨"Left", 1 / 2⟩]]⟩

/-- An environment whose detector reports `shortHandednessResult`. -/
def shortHandednessEnv : Env Unit :=
  ⟨fun _ => some (), fun i => i, fun _ => some shortHandednessResult⟩

/-! ## Framing lemmas -/

/-- A successful `readFrame` consumes at least the 4 length bytes, so the
remaining stream is strictly shorter. -/
theorem readFrame_length_lt {s p : List Nat} {s' : List Nat}
    (h : readFrame s = some (p, s')) : s'.length < s.length := by
  unfold readFrame at h
  simp only at h
  split at h
  · exact absurd h (by simp)
  · split at h
    · exact absurd h (by simp)
    · rename_i h4 _
      simp only [Option.some.injEq, Prod.mk.injEq] at h
      have hs4 : 4 ≤ s.length := by
        simp [List.length_take] at h4
        omega
      have := h.2
      subst this
      simp [List.length_drop]
      omega

/-- Big-endian decoding inverts big-endian encoding below `2^32`. -/
theorem beU32_toBE4 {n : Nat} (h : n < 2 ^ 32) : beU32 (toBE4 n) = n := by
  simp only [beU32, toBE4, List.foldl]
  omega

/-- The length bytes written by the encoder are 4. -/
theorem toBE4_length (n : Nat) : (toBE4 n).length = 4 := rfl

/-- The reader consumes exactly one encoded frame from the front of the
stream and returns its payload unchanged. -/
theorem readFrame_encodeFrame (p rest : List Nat) (h : p.length < 2 ^ 32) :
    readFrame (encodeFrame p ++ rest) = some (p, rest) := by
  unfold readFrame encodeFrame
  rw [List.append_assoc]
  rw [List.take_left' (toBE4_length p.length), List.drop_left' (toBE4_length p.length)]
  simp only [toBE4_length, beU32_toBE4 h, List.take_left, List.drop_left]
  norm_num

/-- A stream shorter than a length prefix yields no frame. -/
theorem readFrame_short {s : List Nat} (h : s.length < 4) :
    readFrame s = none := by
  unfold readFrame
  simp [List.length_take]
  omega

/-- A stream whose declared payload length exceeds the bytes that remain
after the prefix yields no frame. -/
theorem readFrame_shortPayload {s : List Nat}
    (h : (s.drop 4).length < beU32 (s.take 4)) :
    readFrame s = none := by
  unfold readFrame
  simp only [List.length_take, List.length_drop] at h ⊢
  split_ifs with h1 h2
  · rfl
  · rfl
  · exfalso
    simp only [List.length_take, List.length_drop] at h2
    omega

/-! ## Unfolding lemmas for the loop -/

/-- `readFrames` on an ended stream. -/
theorem readFrames_none {s : List Nat} (h : readFrame s = none) :
    readFrames s = [] := by
  rw [readFrames]
  split <;> simp_all

/-- `readFrames` steps over one successfully read frame. -/
theorem readFrames_step {s p s'} (h : readFrame s = some (p, s')) :
    readFrames s = p :: readFrames s' := by
  rw [readFrames]
  split <;> simp_all

/-- `mainLoop` on an ended stream: no record, exit 0. -/
theorem mainLoop_none {Image : Type} (env : Env Image) {s : List Nat}
    (h : readFrame s = none) : mainLoop env s = ([], 0) := by
  rw [mainLoop]
  split <;> simp_all

/-- `mainLoop` when the frame's processing raises: nothing emitted for
it, exit 1, remainder of the stream never read. -/
theorem mainLoop_raise {Image : Type} (env : Env Image) {s p s'}
    (h : readFrame s = some (p, s')) (hp : processFrame env p = none) :
    mainLoop env s = ([], 1) := by
  rw [mainLoop]
  split
  · simp_all
  · rename_i p' s'' heq
    rw [heq] at h
    injection h with h
    injection h with h1 h2
    subst h1
    rw [hp]

/-- `mainLoop` steps over one successfully processed frame. -/
theorem mainLoop_step {Image : Type} (env : Env Image) {s p s' r}
    (h : readFrame s = some (p, s')) (hp : processFrame env p = some r) :
    mainLoop env s = (r :: (mainLoop env s').1, (mainLoop env s').2) := by
  rw [mainLoop]
  split
  · simp_all
  · rename_i p' s'' heq
    rw [heq] at h
    injection h with h
    injection h with h1 h2
    subst h1
    subst h2
    rw [hp]

/-! ## Formatting lemmas -/

/-- `getD` agrees with `get` below the length. -/
theorem list_getD_eq_get {α : Type} (l : List α) (d : α) {i : Nat}
    (hi : i < l.length) : l.getD i d = l.get ⟨i, hi⟩ := by
  simp [List.getD_eq_getElem?_getD, List.getElem?_eq_getElem hi]

/-- Beyond the handedness list, the per-hand defaults are used. -/
theorem formatHand_of_ge {dr : DetectionResult} {i : Nat}
    (lms : List NormalizedLandmark) (hi : dr.handedness.length ≤ i) :
    formatHand dr i lms = some ⟨lms.map mkPoint, "Right", (9 : ℚ) / 10⟩ := by
  unfold formatHand
  rw [dif_neg]
  intro hc
  omega

/-- Below the handedness list, the first category of the matching
classification is used verbatim. -/
theorem formatHand_of_lt {dr : DetectionResult} {i : Nat}
    (lms : List NormalizedLandmark) {c : Category} {cs : List Category}
    (hi : i < dr.handedness.length) (hc : dr.handedness.getD i [] = c :: cs) :
    formatHand dr i lms = some ⟨lms.map mkPoint, c.category_name, c.score⟩ := by
  unfold formatHand
  have hne : dr.handedness ≠ [] := by
    intro h
    rw [h] at hi
    simp at hi
  rw [dif_pos ⟨hne, hi⟩]
  have hget : dr.handedness.get ⟨i, hi⟩ = c :: cs := by
    rw [← list_getD_eq_get _ [] hi]
    exact hc
  rw [hget]

/-- Whatever `formatHand` emits: points are the landmarks passed through,
and handedness/score are either the defaults or taken verbatim from a
category of the detector's handedness list. -/
theorem formatHand_some_cases {dr : DetectionResult} {i : Nat}
    {lms : List NormalizedLandmark} {h : Hand}
    (hh : formatHand dr i lms = some h) :
    h.points = lms.map mkPoint ∧
      ((h.handedness = "Right" ∧ h.score = (9 : ℚ) / 10) ∨
        ∃ cs ∈ dr.handedness, ∃ c ∈ cs,
          h.handedness = c.category_name ∧ h.score = c.score) := by
  unfold formatHand at hh
  split at hh
  · rename_i hcond
    split at hh
    · cases hh
    · rename_i c cs hget
      injection hh with hh
      subst hh
      refine ⟨rfl, Or.inr ⟨dr.handedness.get ⟨i, hcond.2⟩, List.get_mem _ _ _, c, ?_, rfl, rfl⟩⟩
      rw [hget]
      exact List.mem_cons_self _ _
  · injection hh with hh
    subst hh
    exact ⟨rfl, Or.inl ⟨rfl, rfl⟩⟩

/-- When every classification of the handedness list is non-empty,
`formatHand` never raises. -/
theorem formatHand_isSome {dr : DetectionResult}
    (hne : ∀ cs ∈ dr.handedness, cs ≠ []) (i : Nat)
    (lms : List NormalizedLandmark) : ∃ h, formatHand dr i lms = some h := by
  rcases Nat.lt_or_ge i dr.handedness.length with hi | hi
  · rcases hcs : dr.handedness.getD i [] with _ | ⟨c, cs⟩
    · exfalso
      have hmem : dr.handedness.getD i [] ∈ dr.handedness := by
        rw [list_getD_eq_get _ [] hi]
        exact List.get_mem _ _ _
      exact hne _ hmem (by rw [hcs])
    · exact ⟨_, formatHand_of_lt lms hi hcs⟩
  · exact ⟨_, formatHand_of_ge lms hi⟩

/-- Length preservation of the `enumerate` loop. -/
theorem formatHands_length {dr : DetectionResult} :
    ∀ {l : List (List NormalizedLandmark)} {i : Nat} {hs : List Hand},
      formatHands dr i l = some hs → hs.length = l.length := by
  intro l
  induction l with
  | nil =>
      intro i hs h
      injection h with h
      subst h
      rfl
  | cons lms rest ih =>
      intro i hs h
      simp only [formatHands, Option.bind_eq_bind, Option.pure_def,
        Option.bind_eq_some, Option.some.injEq] at h
      obtain ⟨h1, hh1, hs', hh2, h4⟩ := h
      subst h4
      simp [ih hh2]

/-- Pointwise characterization of the `enumerate` loop: the hand at
output position `j` is exactly `formatHand` of the landmark list at
input position `j`, at the shifted index. -/
theorem formatHands_getD {dr : DetectionResult} :
    ∀ {l : List (List NormalizedLandmark)} {i : Nat} {hs : List Hand},
      formatHands dr i l = some hs →
      ∀ j, j < l.length →
        formatHand dr (i + j) (l.getD j []) = some (hs.getD j ⟨[], "", 0⟩) := by
  intro l
  induction l with
  | nil =>
      intro i hs h j hj
      simp at hj
  | cons lms rest ih =>
      intro i hs h j hj
      simp only [formatHands, Option.bind_eq_bind, Option.pure_def,
        Option.bind_eq_some, Option.some.injEq] at h
      obtain ⟨h1, hh1, hs', hh2, h4⟩ := h
      subst h4
      cases j with
      | zero => simpa using hh1
      | succ j =>
          have hrec := ih hh2 j (by simpa using Nat.lt_of_succ_lt_succ hj)
          have heq : i + 1 + j = i + (j + 1) := by omega
          rw [heq] at hrec
          simpa using hrec

/-- Every hand emitted by the `enumerate` loop comes from `formatHand` on
one of the input landmark lists. -/
theorem formatHands_mem {dr : DetectionResult} :
    ∀ {l : List (List NormalizedLandmark)} {i : Nat} {hs : List Hand},
      formatHands dr i l = some hs →
      ∀ h ∈ hs, ∃ i' lms, lms ∈ l ∧ formatHand dr i' lms = some h := by
  intro l
  induction l with
  | nil =>
      intro i hs hf h hmem
      injection hf with hf
      subst hf
      simp at hmem
  | cons lms rest ih =>
      intro i hs hf h hmem
      simp only [formatHands, Option.bind_eq_bind, Option.pure_def,
        Option.bind_eq_some, Option.some.injEq] at hf
      obtain ⟨h1, hh1, hs', hh2, h4⟩ := hf
      subst h4
      rcases List.mem_cons.1 hmem with rfl | hmem'
      · exact ⟨i, lms, List.mem_cons_self _ _, hh1⟩
      · obtain ⟨i', lms', hl, hfh⟩ := ih hh2 h hmem'
        exact ⟨i', lms', List.mem_cons_of_mem _ hl, hfh⟩

/-- When every classification of the handedness list is non-empty, the
`enumerate` loop never raises. -/
theorem formatHands_isSome {dr : DetectionResult}
    (hne : ∀ cs ∈ dr.handedness, cs ≠ []) :
    ∀ (l : List (List NormalizedLandmark)) (i : Nat),
      ∃ hs, formatHands dr i l = some hs := by
  intro l
  induction l with
  | nil => exact fun i => ⟨[], rfl⟩
  | cons lms rest ih =>
      intro i
      obtain ⟨h, hh⟩ := formatHand_isSome hne i lms
      obtain ⟨hs, hhs⟩ := ih (i + 1)
      exact ⟨h :: hs, by simp [formatHands, hh, hhs]⟩

/-- With no handedness classification at all, every hand gets the
defaults. -/
theorem formatHands_of_no_handedness {dr : DetectionResult}
    (hno : dr.handedness = []) :
    ∀ (l : List (List NormalizedLandmark)) (i : Nat),
      formatHands dr i l =
        some (l.map fun lms => ⟨lms.map mkPoint, "Right", (9 : ℚ) / 10⟩) := by
  intro l
  induction l with
  | nil => exact fun i => rfl
  | cons lms rest ih =>
      intro i
      have hge : dr.handedness.length ≤ i := by simp [hno]
      simp [formatHands, formatHand_of_ge lms hge, ih (i + 1)]

/-- With no handedness classification at all, the assembled record maps
every detected hand to its passed-through points and the default
handedness/score. -/
theorem formatResult_of_no_handedness {dr : DetectionResult}
    (hno : dr.handedness = []) :
    formatResult dr =
      some ⟨dr.hand_landmarks.map fun lms =>
        ⟨lms.map mkPoint, "Right", (9 : ℚ) / 10⟩⟩ := by
  unfold formatResult
  split
  · rename_i h
    simp [h]
  · rw [formatHands_of_no_handedness hno]
    rfl

/-- Shape of any record `formatResult` succeeds with: one output hand
per detected hand, produced positionally by `formatHand`. -/
theorem formatResult_some_spec {dr : DetectionResult} {r : OutputRecord}
    (hr : formatResult dr = some r) :
    r.hands.length = dr.hand_landmarks.length ∧
      ∀ j, j < dr.hand_landmarks.length →
        formatHand dr j (dr.hand_landmarks.getD j []) =
          some (r.hands.getD j ⟨[], "", 0⟩) := by
  unfold formatResult at hr
  split at hr
  · rename_i h
    injection hr with hr
    subst hr
    simp [h]
  · simp only [Option.map_eq_some'] at hr
    obtain ⟨hs, hhs, hr⟩ := hr
    subst hr
    refine ⟨formatHands_length hhs, fun j hj => ?_⟩
    simpa using formatHands_getD hhs j hj

/-- Every hand of a record `formatResult` succeeds with comes from
`formatHand` on one of the detected hands. -/
theorem formatResult_mem {dr : DetectionResult} {r : OutputRecord}
    (hr : formatResult dr = some r) :
    ∀ h ∈ r.hands, ∃ i lms, lms ∈ dr.hand_landmarks ∧
      formatHand dr i lms = some h := by
  unfold formatResult at hr
  split at hr
  · rename_i hnil
    injection hr with hr
    subst hr
    intro h hmem
    simp at hmem
  · simp only [Option.map_eq_some'] at hr
    obtain ⟨hs, hhs, hr⟩ := hr
    subst hr
    exact formatHands_mem hhs

/-- When every classification of the handedness list is non-empty,
`formatResult` never raises. -/
theorem formatResult_isSome (dr : DetectionResult)
    (hne : ∀ cs ∈ dr.handedness, cs ≠ []) :
    ∃ r, formatResult dr = some r := by
  unfold formatResult
  split
  · exact ⟨⟨[]⟩, rfl⟩
  · obtain ⟨hs, hhs⟩ := formatHands_isSome hne dr.hand_landmarks 0
    exact ⟨⟨hs⟩, by rw [hhs]; rfl⟩

/-! ## Frame-processing evaluation lemmas -/

/-- Decode failure short-circuits to the empty-hands record. -/
theorem processFrame_decodeFail {Image : Type} (env : Env Image)
    {p : List Nat} (hdec : env.decode p = none) :
    processFrame env p = some ⟨[]⟩ := by
  simp only [processFrame, hdec]

/-- A raising detector makes the frame's processing raise. -/
theorem processFrame_detectRaise {Image : Type} (env : Env Image)
    {p : List Nat} {img : Image} (hdec : env.decode p = some img)
    (hdet : env.detect (env.cvtColor img) = none) :
    processFrame env p = none := by
  simp only [processFrame, hdec, hdet]

/-- A returning detector hands its result to the formatter. -/
theorem processFrame_detectResult {Image : Type} (env : Env Image)
    {p : List Nat} {img : Image} {dr : DetectionResult}
    (hdec : env.decode p = some img)
    (hdet : env.detect (env.cvtColor img) = some dr) :
    processFrame env p = formatResult dr := by
  simp only [processFrame, hdec, hdet]

/-! ## Loop-level lemmas -/

/-- As long as every frame the reader yields processes without raising,
the loop's output is the in-order image of the read frames under
`processFrame`, and the loop exits cleanly.  (Induction on a bound of the
stream length.) -/
theorem mainLoop_map_aux {Image : Type} (env : Env Image) :
    ∀ (n : Nat) (s : List Nat), s.length ≤ n →
      (∀ p ∈ readFrames s, (processFrame env p).isSome) →
      (mainLoop env s).1 =
          (readFrames s).map (fun p => (processFrame env p).getD ⟨[]⟩) ∧
        (mainLoop env s).2 = 0 := by
  intro n
  induction n with
  | zero =>
      intro s hlen h
      have hnone : readFrame s = none := readFrame_short (by omega)
      rw [mainLoop_none env hnone, readFrames_none hnone]
      simp
  | succ n ih =>
      intro s hlen h
      cases hr : readFrame s with
      | none =>
          rw [mainLoop_none env hr, readFrames_none hr]
          simp
      | some ps =>
          obtain ⟨p, s'⟩ := ps
          have hfr := readFrames_step hr
          have hmem : p ∈ readFrames s := by
            rw [hfr]
            exact List.mem_cons_self _ _
          obtain ⟨r, hpr⟩ := Option.isSome_iff_exists.1 (h p hmem)
          have hlt := readFrame_length_lt hr
          have ih' := ih s' (by omega) fun q hq => h q (by
            rw [hfr]
            exact List.mem_cons_of_mem _ hq)
          rw [mainLoop_step env hr hpr, hfr]
          simp [hpr, ih'.1, ih'.2]

/-- Every record the loop emits was produced by `processFrame` on some
fully-read payload. -/
theorem mainLoop_mem_aux {Image : Type} (env : Env Image) :
    ∀ (n : Nat) (s : List Nat), s.length ≤ n →
      ∀ r ∈ (mainLoop env s).1, ∃ p, processFrame env p = some r := by
  intro n
  induction n with
  | zero =>
      intro s hlen r hr
      rw [mainLoop_none env (readFrame_short (by omega))] at hr
      simp at hr
  | succ n ih =>
      intro s hlen r hr
      cases hrf : readFrame s with
      | none =>
          rw [mainLoop_none env hrf] at hr
          simp at hr
      | some ps =>
          obtain ⟨p, s'⟩ := ps
          cases hpf : processFrame env p with
          | none =>
              rw [mainLoop_raise env hrf hpf] at hr
              simp at hr
          | some r0 =>
              rw [mainLoop_step env hrf hpf] at hr
              rcases List.mem_cons.1 hr with rfl | hr'
              · exact ⟨p, hpf⟩
              · have hlt := readFrame_length_lt hrf
                exact ih s' (by omega) r hr'

/-! ## JSON schema lemmas -/

/-- A record all of whose hands serialize within the schema serializes
within the schema. -/
theorem jsonRecordOk_recordToJson {L : Nat} {r : OutputRecord}
    (h : ∀ hd ∈ r.hands, jsonHandOk L (handToJson hd) = true) :
    jsonRecordOk L (recordToJson r) = true := by
  simp only [recordToJson, jsonRecordOk]
  rw [List.all_eq_true]
  intro x hx
  simp only [List.mem_map] at hx
  obtain ⟨hd, hmem, rfl⟩ := hx
  exact h hd hmem

/-- A hand with `L` points, a `"Left"`/`"Right"` handedness and a score
in `[0, 1]` serializes within the schema. -/
theorem jsonHandOk_handToJson {L : Nat} {h : Hand}
    (hlen : h.points.length = L)
    (hname : h.handedness = "Left" ∨ h.handedness = "Right")
    (h0 : 0 ≤ h.score) (h1 : h.score ≤ 1) :
    jsonHandOk L (handToJson h) = true := by
  simp only [handToJson, jsonHandOk]
  rw [Bool.and_eq_true, Bool.and_eq_true, Bool.and_eq_true, Bool.and_eq_true]
  refine ⟨⟨⟨⟨?_, ?_⟩, ?_⟩, ?_⟩, ?_⟩
  · simp [hlen]
  · rw [List.all_eq_true]
    intro x hx
    simp only [List.mem_map] at hx
    obtain ⟨pt, _, rfl⟩ := hx
    rfl
  · rcases hname with h | h <;> simp [h]
  · simpa using h0
  · simpa using h1

/-! ## Claim theorems -/

/-- C1: Framing round-trip — encoding each payload as its length in
big-endian uint32 followed by the payload bytes and feeding the
concatenation to the frame reader yields exactly the payloads back, in
order. -/
theorem framing_roundtrip (ps : List (List Nat))
    (h : ∀ p ∈ ps, p.length < 2 ^ 32) :
    readFrames (encodeAll ps) = ps := by
  induction ps with
  | nil =>
      have he : encodeAll [] = [] := rfl
      rw [he, readFrames_none (readFrame_short (by simp))]
  | cons p ps ih =>
      have hp : p.length < 2 ^ 32 := h p (List.mem_cons_self _ _)
      have he : encodeAll (p :: ps) = encodeFrame p ++ encodeAll ps := rfl
      rw [he, readFrames_step (readFrame_encodeFrame _ _ hp)]
      rw [ih fun q hq => h q (List.mem_cons_of_mem _ hq)]

/-- Witness for `framing_roundtrip` at the two payloads `"HELLO"` and the
empty payload. -/
theorem framing_roundtrip_witness :
    (∀ p ∈ [[72, 69, 76, 76, 79], ([] : List Nat)], p.length < 2 ^ 32) ∧
      readFrames (encodeAll [[72, 69, 76, 76, 79], []]) =
        [[72, 69, 76, 76, 79], []] :=
  ⟨by decide, framing_roundtrip _ (by decide)⟩

/-- C2: One-to-one ordered correspondence — when every fully-read frame
processes without raising, the loop writes exactly one record per read
frame, record `i` being `processFrame` of frame `i`, and exits cleanly.
No frame is dropped and no record is emitted without a fully-read
frame. -/
theorem output_one_to_one {Image : Type} (env : Env Image) (s : List Nat)
    (h : ∀ p ∈ readFrames s, (processFrame env p).isSome) :
    (mainLoop env s).1 =
        (readFrames s).map (fun p => (processFrame env p).getD ⟨[]⟩) ∧
      (mainLoop env s).2 = 0 :=
  mainLoop_map_aux env s.length s (le_refl _) h

/-- Witness for `output_one_to_one` on a one-frame stream. -/
theorem output_one_to_one_witness :
    (∀ p ∈ readFrames (encodeFrame [1] ++ []), (processFrame okEnv p).isSome) ∧
      ((mainLoop okEnv (encodeFrame [1] ++ [])).1 =
          (readFrames (encodeFrame [1] ++ [])).map
            (fun p => (processFrame okEnv p).getD ⟨[]⟩) ∧
        (mainLoop okEnv (encodeFrame [1] ++ [])).2 = 0) := by
  have hfr : readFrames (encodeFrame [1] ++ []) = [[1]] := by
    rw [readFrames_step (readFrame_encodeFrame _ _ (by norm_num))]
    rw [readFrames_none (readFrame_short (by norm_num))]
  have hyp : ∀ p ∈ readFrames (encodeFrame [1] ++ []),
      (processFrame okEnv p).isSome := by
    rw [hfr]
    decide
  exact ⟨hyp, output_one_to_one okEnv _ hyp⟩

/-- C3: Decode-failure fallback — a payload the decoder rejects yields
the record `{"hands": []}` whatever the detector is (so the detector is
not invoked), and the loop continues with the rest of the stream; the
process is not terminated. -/
theorem decode_failure_fallback {Image : Type} (env : Env Image)
    {p : List Nat} (hdec : env.decode p = none) (hlen : p.length < 2 ^ 32)
    (rest : List Nat) :
    (∀ d : Image → Option DetectionResult,
        processFrame ⟨env.decode, env.cvtColor, d⟩ p = some ⟨[]⟩) ∧
      mainLoop env (encodeFrame p ++ rest) =
        ((⟨[]⟩ : OutputRecord) :: (mainLoop env rest).1,
          (mainLoop env rest).2) := by
  have hpf : ∀ d : Image → Option DetectionResult,
      processFrame ⟨env.decode, env.cvtColor, d⟩ p = some ⟨[]⟩ :=
    fun d => processFrame_decodeFail ⟨env.decode, env.cvtColor, d⟩ hdec
  refine ⟨hpf, ?_⟩
  have hpf' : processFrame env p = some ⟨[]⟩ := processFrame_decodeFail env hdec
  rw [mainLoop_step env (readFrame_encodeFrame _ _ hlen) hpf']

/-- Witness for `decode_failure_fallback` on a failing one-byte
payload. -/
theorem decode_failure_fallback_witness :
    decodeFailEnv.decode [1] = none ∧ ([1] : List Nat).length < 2 ^ 32 ∧
      ((∀ d, processFrame ⟨decodeFailEnv.decode, decodeFailEnv.cvtColor, d⟩ [1] =
          some ⟨[]⟩) ∧
        mainLoop decodeFailEnv (encodeFrame [1] ++ []) =
          ((⟨[]⟩ : OutputRecord) :: (mainLoop decodeFailEnv []).1,
            (mainLoop decodeFailEnv []).2)) :=
  ⟨rfl, by decide, decode_failure_fallback decodeFailEnv rfl (by decide) []⟩

/-- C4: Truncation handling — a stream with fewer than 4 bytes for the
length prefix, or fewer than the declared length bytes for the payload,
reads as a clean end-of-stream: no frame, no record, and the process
exits with status 0. -/
theorem truncation_endofstream {Image : Type} (path : String)
    (env : Env Image) {s : List Nat}
    (h : s.length < 4 ∨ (s.drop 4).length < beU32 (s.take 4)) :
    readFrame s = none ∧ mainLoop env s = ([], 0) ∧
      runService true path env s = ([], [], 0) := by
  have hr : readFrame s = none := by
    rcases h with h | h
    · exact readFrame_short h
    · exact readFrame_shortPayload h
  refine ⟨hr, mainLoop_none env hr, ?_⟩
  unfold runService
  rw [mainLoop_none env hr]
  rfl

/-- Witness for `truncation_endofstream` on a stream that declares a
5-byte payload but carries only 2 bytes. -/
theorem truncation_endofstream_witness :
    (([0, 0, 0, 5, 72, 69] : List Nat).length < 4 ∨
        (([0, 0, 0, 5, 72, 69] : List Nat).drop 4).length <
          beU32 (([0, 0, 0, 5, 72, 69] : List Nat).take 4)) ∧
      (readFrame [0, 0, 0, 5, 72, 69] = none ∧
        mainLoop okEnv [0, 0, 0, 5, 72, 69] = ([], 0) ∧
        runService true "hand_landmarker.task" okEnv [0, 0, 0, 5, 72, 69] =
          ([], [], 0)) :=
  ⟨Or.inr (by decide),
    truncation_endofstream "hand_landmarker.task" okEnv (Or.inr (by decide))⟩

/-- C5: Schema conformance — under the detector contract (fixed landmark
count `L`, `"Left"`/`"Right"` categories with scores in `[0, 1]`), every
output line the loop emits is a JSON object whose single key `hands`
holds an array of hands with `L` numeric `{x, y, z}` points, a
`"Left"`/`"Right"` handedness and a score in `[0, 1]`. -/
theorem schema_conformance {Image : Type} (env : Env Image) (L : Nat)
    (s : List Nat) (hc : detectorContract env L) :
    ∀ r ∈ (mainLoop env s).1, jsonRecordOk L (recordToJson r) = true := by
  intro r hr
  obtain ⟨p, hp⟩ := mainLoop_mem_aux env s.length s (le_refl _) r hr
  cases hd : env.decode p with
  | none =>
      rw [processFrame_decodeFail env hd] at hp
      injection hp with hp
      subst hp
      rfl
  | some img =>
      cases hdet : env.detect (env.cvtColor img) with
      | none =>
          rw [processFrame_detectRaise env hd hdet] at hp
          cases hp
      | some dr =>
          rw [processFrame_detectResult env hd hdet] at hp
          obtain ⟨hL, hcs⟩ := hc _ _ hdet
          refine jsonRecordOk_recordToJson fun hd hmem => ?_
          obtain ⟨i, lms, hlmem, hfh⟩ := formatResult_mem hp hd hmem
          obtain ⟨hpts, hcases⟩ := formatHand_some_cases hfh
          have hplen : hd.points.length = L := by
            rw [hpts, List.length_map]
            exact hL lms hlmem
          rcases hcases with ⟨hname, hscore⟩ | ⟨cs, hcsmem, c, hcmem, hname, hscore⟩
          · exact jsonHandOk_handToJson hplen (Or.inr hname)
              (by rw [hscore]; norm_num) (by rw [hscore]; norm_num)
          · obtain ⟨hnm, h0, h1⟩ := hcs cs hcsmem c hcmem
            exact jsonHandOk_handToJson hplen (by rw [hname]; exact hnm)
              (by rw [hscore]; exact h0) (by rw [hscore]; exact h1)

/-- Witness for `schema_conformance` on a one-frame stream and the
one-landmark detector fixture. -/
theorem schema_conformance_witness :
    detectorContract okEnv 1 ∧
      ∀ r ∈ (mainLoop okEnv (encodeFrame [1] ++ [])).1,
        jsonRecordOk 1 (recordToJson r) = true := by
  have hc : detectorContract okEnv 1 := by
    intro img dr h
    injection h with h
    subst h
    exact ⟨by decide, by decide⟩
  exact ⟨hc, schema_conformance okEnv 1 _ hc⟩

/-- C6: Field defaults — a detector result with detected hands but no
handedness classification at all yields hands whose handedness is
`"Right"` and whose score is `0.9`. -/
theorem field_defaults {Image : Type} (env : Env Image) {p : List Nat}
    {img : Image} {dr : DetectionResult} (hdec : env.decode p = some img)
    (hdet : env.detect (env.cvtColor img) = some dr)
    (hno : dr.handedness = []) :
    processFrame env p =
      some ⟨dr.hand_landmarks.map fun lms =>
        ⟨lms.map mkPoint, "Right", (9 : ℚ) / 10⟩⟩ := by
  rw [processFrame_detectResult env hdec hdet, formatResult_of_no_handedness hno]

/-- Witness for `field_defaults` on the classification-free detector
fixture. -/
theorem field_defaults_witness :
    noHandednessEnv.decode [1] = some () ∧
      noHandednessEnv.detect (noHandednessEnv.cvtColor ()) =
        some noHandednessResult ∧
      noHandednessResult.handedness = [] ∧
      processFrame noHandednessEnv [1] =
        some ⟨noHandednessResult.hand_landmarks.map fun lms =>
          ⟨lms.map mkPoint, "Right", (9 : ℚ) / 10⟩⟩ :=
  ⟨rfl, rfl, rfl, field_defaults noHandednessEnv rfl rfl rfl⟩

/-- C7: Landmark pass-through and order preservation — the emitted record
has one hand per detected hand, positionally in the detector's order, and
the hand at position `j` carries exactly the detector's landmarks at
position `j`, each mapped to `{x, y, z}` unchanged. -/
theorem landmark_passthrough {Image : Type} (env : Env Image)
    {p : List Nat} {img : Image} {dr : DetectionResult}
    (hdec : env.decode p = some img)
    (hdet : env.detect (env.cvtColor img) = some dr)
    (hne : ∀ cs ∈ dr.handedness, cs ≠ []) :
    ∃ r, processFrame env p = some r ∧
      r.hands.length = dr.hand_landmarks.length ∧
      ∀ j, j < dr.hand_landmarks.length →
        (r.hands.getD j ⟨[], "", 0⟩).points =
          (dr.hand_landmarks.getD j []).map
            fun lm => Point.mk lm.x lm.y lm.z := by
  obtain ⟨r, hr⟩ := formatResult_isSome dr hne
  refine ⟨r, ?_, (formatResult_some_spec hr).1, ?_⟩
  · rw [processFrame_detectResult env hdec hdet]
    exact hr
  · intro j hj
    have hfh := (formatResult_some_spec hr).2 j hj
    obtain ⟨hpts, _⟩ := formatHand_some_cases hfh
    rw [hpts]
    rfl

/-- Witness for `landmark_passthrough` on the one-landmark detector
fixture. -/
theorem landmark_passthrough_witness :
    okEnv.decode [1] = some () ∧
      okEnv.detect (okEnv.cvtColor ()) = some sampleResult ∧
      (∀ cs ∈ sampleResult.handedness, cs ≠ []) ∧
      ∃ r, processFrame okEnv [1] = some r ∧
        r.hands.length = sampleResult.hand_landmarks.length ∧
        ∀ j, j < sampleResult.hand_landmarks.length →
          (r.hands.getD j ⟨[], "", 0⟩).points =
            (sampleResult.hand_landmarks.getD j []).map
              fun lm => Point.mk lm.x lm.y lm.z :=
  ⟨rfl, rfl, by decide, landmark_passthrough okEnv rfl rfl (by decide)⟩

/-- C8: Detector failure is fail-fast — when the detector raises on a
frame, no record (empty-hands or otherwise) is emitted for it, the loop
stops without reading the rest of the stream, and the process exits with
a non-zero status. -/
theorem detector_failure_failfast {Image : Type} (path : String)
    (env : Env Image) {p : List Nat} {img : Image}
    (hdec : env.decode p = some img)
    (hdet : env.detect (env.cvtColor img) = none) (hlen : p.length < 2 ^ 32)
    (rest : List Nat) :
    processFrame env p = none ∧
      mainLoop env (encodeFrame p ++ rest) = ([], 1) ∧
      runService true path env (encodeFrame p ++ rest) = ([], [], 1) := by
  have hpf : processFrame env p = none := processFrame_detectRaise env hdec hdet
  refine ⟨hpf, mainLoop_raise env (readFrame_encodeFrame _ _ hlen) hpf, ?_⟩
  unfold runService
  rw [mainLoop_raise env (readFrame_encodeFrame _ _ hlen) hpf]
  rfl

/-- Witness for `detector_failure_failfast` on the always-raising
detector fixture. -/
theorem detector_failure_failfast_witness :
    detectorRaiseEnv.decode [1] = some () ∧
      detectorRaiseEnv.detect (detectorRaiseEnv.cvtColor ()) = none ∧
      ([1] : List Nat).length < 2 ^ 32 ∧
      (processFrame detectorRaiseEnv [1] = none ∧
        mainLoop detectorRaiseEnv (encodeFrame [1] ++ []) = ([], 1) ∧
        runService true "hand_landmarker.task" detectorRaiseEnv
          (encodeFrame [1] ++ []) = ([], [], 1)) :=
  ⟨rfl, rfl, by decide,
    detector_failure_failfast "hand_landmarker.task" detectorRaiseEnv rfl rfl
      (by decide) []⟩

/-- C9: Startup precondition — with the model asset absent, the process
reports the error on the error stream and exits with status 1; the result
is the same constant for every input stream, so no frame is read and no
record is ever produced. -/
theorem startup_missing_model {Image : Type} (path : String)
    (env : Env Image) (s : List Nat) :
    runService false path env s = ([], [modelNotFoundMsg path], 1) := rfl

/-- C10: Implicit per-hand defaulting — with a non-empty handedness list
shorter than the detected-hands list, a hand at an index with a
classification takes that classification's first category name and score
verbatim, while a hand at an index beyond the handedness list takes the
defaults `"Right"` and `0.9`. -/
theorem per_hand_defaulting {Image : Type} (env : Env Image)
    {p : List Nat} {img : Image} {dr : DetectionResult}
    (hdec : env.decode p = some img)
    (hdet : env.detect (env.cvtColor img) = some dr)
    (_hne0 : dr.handedness ≠ [])
    (hshort : dr.handedness.length < dr.hand_landmarks.length)
    (hne : ∀ cs ∈ dr.handedness, cs ≠ []) :
    ∃ r, processFrame env p = some r ∧
      r.hands.length = dr.hand_landmarks.length ∧
      (∀ j, j < dr.handedness.length →
        ∀ c cs, dr.handedness.getD j [] = c :: cs →
          (r.hands.getD j ⟨[], "", 0⟩).handedness = c.category_name ∧
            (r.hands.getD j ⟨[], "", 0⟩).score = c.score) ∧
      (∀ j, dr.handedness.length ≤ j → j < dr.hand_landmarks.length →
        (r.hands.getD j ⟨[], "", 0⟩).handedness = "Right" ∧
          (r.hands.getD j ⟨[], "", 0⟩).score = (9 : ℚ) / 10) := by
  obtain ⟨r, hr⟩ := formatResult_isSome dr hne
  obtain ⟨hlen', hspec⟩ := formatResult_some_spec hr
  refine ⟨r, ?_, hlen', ?_, ?_⟩
  · rw [processFrame_detectResult env hdec hdet]
    exact hr
  · intro j hj c cs hc
    have hfh := hspec j (lt_trans hj hshort)
    rw [formatHand_of_lt _ hj hc] at hfh
    injection hfh with hfh
    rw [← hfh]
    exact ⟨rfl, rfl⟩
  · intro j hj1 hj2
    have hfh := hspec j hj2
    rw [formatHand_of_ge _ hj1] at hfh
    injection hfh with hfh
    rw [← hfh]
    exact ⟨rfl, rfl⟩

/-- Witness for `per_hand_defaulting` on the two-hands-one-classification
detector fixture. -/
theorem per_hand_defaulting_witness :
    shortHandednessEnv.decode [1] = some () ∧
      shortHandednessEnv.detect (shortHandednessEnv.cvtColor ()) =
        some shortHandednessResult ∧
      shortHandednessResult.handedness ≠ [] ∧
      shortHandednessResult.handedness.length <
        shortHandednessResult.hand_landmarks.length ∧
      (∀ cs ∈ shortHandednessResult.handedness, cs ≠ []) ∧
      ∃ r, processFrame shortHandednessEnv [1] = some r ∧
        r.hands.length = shortHandednessResult.hand_landmarks.length ∧
        (∀ j, j < shortHandednessResult.handedness.length →
          ∀ c cs, shortHandednessResult.handedness.getD j [] = c :: cs →
            (r.hands.getD j ⟨[], "", 0⟩).handedness = c.category_name ∧
              (r.hands.getD j ⟨[], "", 0⟩).score = c.score) ∧
        (∀ j, shortHandednessResult.handedness.length ≤ j →
          j < shortHandednessResult.hand_landmarks.length →
          (r.hands.getD j ⟨[], "", 0⟩).handedness = "Right" ∧
            (r.hands.getD j ⟨[], "", 0⟩).score = (9 : ℚ) / 10) :=
  ⟨rfl, rfl, by decide, by decide, by decide,
    per_hand_defaulting shortHandednessEnv rfl rfl (by decide) (by decide)
      (by decide)⟩

end MediapipeService
